import Mathlib

/-!
Verification of the `strings`(1)-style extraction engine (Rust sources
`src/utils.rs`, `src/strings.rs`) against its natural-language specification.

The Rust code is shallowly embedded: machine integers become `Nat` (the Rust
code uses `u8`/`u16`/`u32`/`u64` values that are masked with `&&& 0xff` or
guarded exactly where the source does; no arithmetic below ever exceeds the
corresponding machine range on byte inputs, and truncating casts such as
`symbol as u8` are rendered as `% 256`), byte buffers become `List Nat`,
mutable state is threaded explicitly, `panic!` sites become `Option`, and
the two unbounded scanning loops of the source are given an explicit
iteration budget (`fuel`): every run the fueled scanner emits is a run the
source emits, so universally quantified properties over emitted runs are
fuel-independent.
-/

set_option maxRecDepth 10000

namespace Strings

/-- `UnicodeDisplayKind` from `strings.rs`. -/
inductive UnicodeDisplayKind where
  | Default
  | Show
  | Escape
  | Hex
  | Highlight
  | Invalid
deriving DecidableEq, Repr

/-- `EncodingKind` from `strings.rs`. -/
inductive EncodingKind where
  | Bit7
  | Bit8
  | BigEndian16
  | LittleEndian16
  | BigEndian32
  | LittleEndian32
deriving DecidableEq, Repr

/-- `EncodingKind::num_bytes` from `strings.rs`. -/
def EncodingKind.num_bytes : EncodingKind → Nat
  | .Bit7 | .Bit8 => 1
  | .BigEndian16 | .LittleEndian16 => 2
  | .BigEndian32 | .LittleEndian32 => 4

/-- `matches!(encoding, EncodingKind::Bit8)` from `utils.rs`. -/
def EncodingKind.isBit8 : EncodingKind → Bool
  | .Bit8 => true
  | _ => false

/-- `is_printable_ascii` from `utils.rs`: the match `'\x20'..='\x7e'`.
The Rust argument is a `char`, i.e. a Unicode scalar value, embedded as a
`Nat` code point. -/
def is_printable_ascii (c : Nat) : Bool :=
  decide (0x20 ≤ c ∧ c ≤ 0x7e)

/-- Rust `char::is_ascii_whitespace`: space, tab, newline, form feed,
carriage return. -/
def char_is_ascii_whitespace (c : Nat) : Bool :=
  decide (c = 0x20 ∨ c = 0x09 ∨ c = 0x0a ∨ c = 0x0c ∨ c = 0x0d)

/-- `char_is_printable` from `utils.rs` (the Character Classifier).
The Rust `c >= '\x00'` conjunct is vacuous on `Nat` just as it is on a
Rust `char`. -/
def char_is_printable (c : Nat) (encoding : EncodingKind)
    (include_all_whitespace : Bool) : Bool :=
  decide (c ≤ 0xff) &&
    (decide (c = 0x09) ||
      is_printable_ascii c ||
      (encoding.isBit8 && decide (0x7f < c)) ||
      (include_all_whitespace && (char_is_ascii_whitespace c || decide (c = 0x0b))))

/-- `to_little_endian_32` from `utils.rs`. -/
def to_little_endian_32 (symbol : Nat) : Nat :=
  ((symbol &&& 0xff) <<< 24) ||| ((symbol &&& 0xff00) <<< 8) |||
    ((symbol &&& 0xff0000) >>> 8) ||| ((symbol &&& 0xff000000) >>> 24)

/-- `to_little_endian_16` from `utils.rs`. -/
def to_little_endian_16 (symbol : Nat) : Nat :=
  ((symbol &&& 0xff) <<< 8) ||| ((symbol &&& 0xff00) >>> 8)

/-- `is_valid_utf8` from `utils.rs`.  The Rust function indexes `buffer[0]`
unconditionally (its callers always hand it a nonempty window); the model
reads that byte with `getD` and the theorems about the function carry a
nonemptiness hypothesis. -/
def is_valid_utf8 (buffer : List Nat) : Nat :=
  if buffer.getD 0 0 < 0xc0 then 0
  else if buffer.length < 2 then 0
  else if ¬ (buffer.getD 1 0 &&& 0xc0 = 0x80) then 0
  else if buffer.getD 0 0 &&& 0x20 = 0 then 2
  else if buffer.length < 3 then 0
  else if ¬ (buffer.getD 2 0 &&& 0xc0 = 0x80) then 0
  else if buffer.getD 0 0 &&& 0x10 = 0 then 3
  else if buffer.length < 4 then 0
  else if ¬ (buffer.getD 3 0 &&& 0xc0 = 0x80) then 0
  else 4

/-- A continuation-byte slot for `is_valid_utf8`: position `j` of the window
exists and holds a byte in `0x80..=0xBF`. -/
def contOk (w : List Nat) (j : Nat) : Prop :=
  j < w.length ∧ 0x80 ≤ w.getD j 0 ∧ w.getD j 0 ≤ 0xbf

instance (w : List Nat) (j : Nat) : Decidable (contOk w j) := by
  unfold contOk; infer_instance

/-- For a byte, masking with `0xc0` equals `0x80` exactly on the
continuation range `0x80..=0xBF`. -/
lemma and_c0_eq_80_iff (b : Nat) (hb : b < 256) :
    (b &&& 0xc0 = 0x80) ↔ (0x80 ≤ b ∧ b ≤ 0xbf) := by
  have : ∀ x : Fin 256, ((x : Nat) &&& 0xc0 = 0x80) ↔ (0x80 ≤ (x : Nat) ∧ (x : Nat) ≤ 0xbf) := by
    decide
  exact this ⟨b, hb⟩

end Strings

namespace Strings

lemma isBit8_iff (e : EncodingKind) : e.isBit8 = true ↔ e = .Bit8 := by
  cases e <;> simp [EncodingKind.isBit8]

/-- Continuation-byte test as the source writes it, for an in-range window
position, coincides with the range `0x80..=0xBF`. -/
lemma cont_byte_iff (w : List Nat) (hb : ∀ b ∈ w, b < 256) (j : Nat)
    (hj : j < w.length) :
    (w.getD j 0 &&& 0xc0 = 0x80) ↔ (0x80 ≤ w.getD j 0 ∧ w.getD j 0 ≤ 0xbf) := by
  refine and_c0_eq_80_iff _ (hb _ ?_)
  rw [List.getD_eq_getElem w 0 hj]
  exact List.getElem_mem hj

/-- Propositional normal form of `is_valid_utf8` on a window whose lead byte
is ≥ `0xC0`, in terms of the source's own masked continuation tests. -/
lemma is_valid_utf8_eq_mask (w : List Nat) (h0 : ¬ w.getD 0 0 < 0xc0) :
    is_valid_utf8 w =
      if w.getD 0 0 &&& 0x20 = 0 then
        (if ¬ w.length < 2 ∧ w.getD 1 0 &&& 0xc0 = 0x80 then 2 else 0)
      else if w.getD 0 0 &&& 0x10 = 0 then
        (if (¬ w.length < 2 ∧ w.getD 1 0 &&& 0xc0 = 0x80) ∧
            ¬ w.length < 3 ∧ w.getD 2 0 &&& 0xc0 = 0x80 then 3 else 0)
      else
        (if ((¬ w.length < 2 ∧ w.getD 1 0 &&& 0xc0 = 0x80) ∧
             ¬ w.length < 3 ∧ w.getD 2 0 &&& 0xc0 = 0x80) ∧
            ¬ w.length < 4 ∧ w.getD 3 0 &&& 0xc0 = 0x80 then 4 else 0) := by
  unfold is_valid_utf8
  split_ifs <;> first | rfl | tauto

/-- A masked continuation test plus the in-window length check is exactly the
`contOk` slot predicate. -/
lemma mask_slot_iff (w : List Nat) (hb : ∀ b ∈ w, b < 256) (j : Nat) :
    (¬ w.length < j + 1 ∧ w.getD j 0 &&& 0xc0 = 0x80) ↔ contOk w j := by
  unfold contOk
  constructor
  · rintro ⟨hj, hm⟩
    exact ⟨by omega, (cont_byte_iff w hb j (by omega)).mp hm⟩
  · rintro ⟨hj, hr⟩
    exact ⟨by omega, (cont_byte_iff w hb j hj).mpr hr⟩

/-- Normal form of `is_valid_utf8` on a window whose lead byte is ≥ `0xC0`:
the declared length is read off the lead byte's `0x20`/`0x10` bits, and the
result is that length exactly when every required continuation slot checks
out, else `0`. -/
lemma is_valid_utf8_eq (w : List Nat) (hb : ∀ b ∈ w, b < 256)
    (h0 : 0xc0 ≤ w.getD 0 0) :
    is_valid_utf8 w =
      if w.getD 0 0 &&& 0x20 = 0 then (if contOk w 1 then 2 else 0)
      else if w.getD 0 0 &&& 0x10 = 0 then
        (if contOk w 1 ∧ contOk w 2 then 3 else 0)
      else (if contOk w 1 ∧ contOk w 2 ∧ contOk w 3 then 4 else 0) := by
  rw [is_valid_utf8_eq_mask w (by omega)]
  simp only [mask_slot_iff w hb, and_assoc]

end Strings

namespace Strings

/-- C4: `char_is_printable(c, encoding, include_all_whitespace)` returns true
iff `c` is in `[0x00, 0xFF]` and (`c` is tab, or `c` is in `[0x20, 0x7E]`, or
(the encoding is 8-bit and `c > 0x7F`), or (`include_all_whitespace` is set
and (`c` is ASCII whitespace — space, tab, newline, form feed, carriage
return — or `c` is `0x0B`))), for every character value, every encoding and
both flag values. -/
theorem char_is_printable_iff_spec (c : Nat) (encoding : EncodingKind)
    (include_all_whitespace : Bool) :
    char_is_printable c encoding include_all_whitespace = true ↔
      (c ≤ 0xff ∧
        (c = 0x09 ∨
          (0x20 ≤ c ∧ c ≤ 0x7e) ∨
          (encoding = .Bit8 ∧ 0x7f < c) ∨
          (include_all_whitespace = true ∧
            ((c = 0x20 ∨ c = 0x09 ∨ c = 0x0a ∨ c = 0x0c ∨ c = 0x0d) ∨ c = 0x0b)))) := by
  simp only [char_is_printable, is_printable_ascii, char_is_ascii_whitespace,
    Bool.and_eq_true, Bool.or_eq_true, decide_eq_true_eq, isBit8_iff]
  tauto

/-- C5: `is_valid_utf8` returns 0 when byte 0 is below `0xC0`; otherwise it
returns the length declared by the lead byte's high bits (`0x20` bit clear
gives 2, `0x10` bit clear gives 3, else 4) exactly when every required
continuation byte is present and in `0x80..=0xBF`, returns 0 when a
continuation byte is out of range or the window is too short, and never
returns 1. -/
theorem is_valid_utf8_spec (w : List Nat) (hne : w ≠ [])
    (hb : ∀ b ∈ w, b < 256) :
    (w.getD 0 0 < 0xc0 → is_valid_utf8 w = 0) ∧
    is_valid_utf8 w ≠ 1 ∧
    (0xc0 ≤ w.getD 0 0 → w.getD 0 0 &&& 0x20 = 0 →
      ((is_valid_utf8 w = 2 ↔ contOk w 1) ∧
        (is_valid_utf8 w = 0 ∨ is_valid_utf8 w = 2))) ∧
    (0xc0 ≤ w.getD 0 0 → ¬ w.getD 0 0 &&& 0x20 = 0 → w.getD 0 0 &&& 0x10 = 0 →
      ((is_valid_utf8 w = 3 ↔ contOk w 1 ∧ contOk w 2) ∧
        (is_valid_utf8 w = 0 ∨ is_valid_utf8 w = 3))) ∧
    (0xc0 ≤ w.getD 0 0 → ¬ w.getD 0 0 &&& 0x20 = 0 → ¬ w.getD 0 0 &&& 0x10 = 0 →
      ((is_valid_utf8 w = 4 ↔ contOk w 1 ∧ contOk w 2 ∧ contOk w 3) ∧
        (is_valid_utf8 w = 0 ∨ is_valid_utf8 w = 4))) := by
  refine ⟨?_, ?_, ?_, ?_, ?_⟩
  · intro h0
    unfold is_valid_utf8
    rw [if_pos h0]
  · by_cases h0 : w.getD 0 0 < 0xc0
    · unfold is_valid_utf8
      rw [if_pos h0]
      omega
    · rw [is_valid_utf8_eq w hb (by omega)]
      split_ifs <;> omega
  · intro h0 h20
    rw [is_valid_utf8_eq w hb h0, if_pos h20]
    split_ifs with hc <;> simp [hc]
  · intro h0 h20 h10
    rw [is_valid_utf8_eq w hb h0, if_neg h20, if_pos h10]
    split_ifs with hc <;> simp [hc]
  · intro h0 h20 h10
    rw [is_valid_utf8_eq w hb h0, if_neg h20, if_neg h10]
    split_ifs with hc <;> simp [hc]

/-- Witness for C5 at the 2-byte window `C2 A2` and the malformed window
`C2 41`. -/
theorem is_valid_utf8_spec_witness :
    is_valid_utf8 [0xc2, 0xa2] = 2 ∧ is_valid_utf8 [0xc2, 0x41] = 0 := by
  constructor
  · exact (((is_valid_utf8_spec [0xc2, 0xa2] (by decide)
      (by decide)).2.2.1 (by decide) (by decide)).1).mpr (by decide)
  · rcases ((is_valid_utf8_spec [0xc2, 0x41] (by decide)
      (by decide)).2.2.1 (by decide) (by decide)) with ⟨hiff, hor⟩
    rcases hor with h | h
    · exact h
    · exact absurd (hiff.mp h) (by decide)

end Strings

namespace Strings

/-- One lowercase hexadecimal digit (`n < 16`). -/
def hex_digit (n : Nat) : Char :=
  if n < 10 then Char.ofNat (48 + n) else Char.ofNat (87 + n)

/-- Rust `{:02x}` formatting of a `u8` value: two lowercase hex digits.
Taking the two low hex digits also reproduces the `u8` wrap-around of the
shifted group expressions in `display_utf8_char` (all of them are `< 4096`). -/
def hex2 (n : Nat) : String :=
  String.mk [hex_digit (n / 16 % 16), hex_digit (n % 16)]

/-- The byte length `display_utf8_char` derives from the lead byte's `0x30`
bits (`strings.rs` lines 956-960). -/
def display_utf8_len (buffer : List Nat) : Nat :=
  let m := buffer.getD 0 0 &&& 0x30
  if m = 0x00 ∨ m = 0x10 then 2 else if m = 0x20 then 3 else 4

/-- `display_utf8_char` from `strings.rs`: renders a multi-byte window per
display mode and returns the rendered text together with the byte length it
reports to the caller.  The process-global `atty::is(Stream::Stdout)` lookup
is passed in as the explicit `is_tty` flag.  The Rust source's second
Highlight escape is the literal `"\033[0m"`, which in Rust is a NUL byte
followed by `33[0m` (Rust has no octal escapes); it is reproduced verbatim. -/
def display_utf8_char (buffer : List Nat) (display : UnicodeDisplayKind)
    (is_tty : Bool) : String × Nat :=
  let b0 := buffer.getD 0 0
  let b1 := buffer.getD 1 0
  let b2 := buffer.getD 2 0
  let b3 := buffer.getD 3 0
  let utf8_len := display_utf8_len buffer
  let out :=
    match display with
    | .Escape | .Highlight =>
      let pre := if display = .Highlight ∧ is_tty = true then "\x1B[31;47m" else ""
      let body :=
        if utf8_len = 2 then
          "\\u" ++ hex2 ((b0 &&& 0x1c) >>> 2) ++
            hex2 (((b0 &&& 0x03) <<< 6) ||| (b1 &&& 0x3f))
        else if utf8_len = 3 then
          "\\u" ++ hex2 (((b0 &&& 0x0f) <<< 4) ||| ((b1 &&& 0x3c) >>> 2)) ++
            hex2 (((b1 &&& 0x03) <<< 6) ||| (b2 &&& 0x3f))
        else
          "\\u" ++ hex2 (((b0 &&& 0x07) <<< 6) ||| ((b1 &&& 0x3c) >>> 2)) ++
            hex2 (((b1 &&& 0x03) <<< 6) ||| ((b2 &&& 0x3c) >>> 2)) ++
            hex2 (((b2 &&& 0x03) <<< 6) ||| (b3 &&& 0x3f))
      let post := if display = .Highlight ∧ is_tty = true then "\x0033[0m" else ""
      pre ++ body ++ post
    | .Hex =>
      "<0x" ++ String.join ((List.range utf8_len).map (fun j => hex2 (buffer.getD j 0))) ++ ">"
    | .Show =>
      "[" ++ String.intercalate ", " (buffer.map (fun b => toString b)) ++ "]"
    | _ => ""
  (out, utf8_len)

/-- How the lead byte's `0x30` mask (used by the formatter) relates to its
`0x20`/`0x10` bits (used by the validator), for every byte. -/
lemma and30_cases (b : Nat) (hb : b < 256) :
    (b &&& 0x20 = 0 → (b &&& 0x30 = 0x00 ∨ b &&& 0x30 = 0x10)) ∧
    (¬ b &&& 0x20 = 0 → b &&& 0x10 = 0 →
      (¬ (b &&& 0x30 = 0x00 ∨ b &&& 0x30 = 0x10) ∧ b &&& 0x30 = 0x20)) ∧
    (¬ b &&& 0x20 = 0 → ¬ b &&& 0x10 = 0 →
      (¬ (b &&& 0x30 = 0x00 ∨ b &&& 0x30 = 0x10) ∧ ¬ b &&& 0x30 = 0x20)) := by
  have h : ∀ x : Fin 256,
      ((x : Nat) &&& 0x20 = 0 → ((x : Nat) &&& 0x30 = 0x00 ∨ (x : Nat) &&& 0x30 = 0x10)) ∧
      (¬ (x : Nat) &&& 0x20 = 0 → (x : Nat) &&& 0x10 = 0 →
        (¬ ((x : Nat) &&& 0x30 = 0x00 ∨ (x : Nat) &&& 0x30 = 0x10) ∧ (x : Nat) &&& 0x30 = 0x20)) ∧
      (¬ (x : Nat) &&& 0x20 = 0 → ¬ (x : Nat) &&& 0x10 = 0 →
        (¬ ((x : Nat) &&& 0x30 = 0x00 ∨ (x : Nat) &&& 0x30 = 0x10) ∧
          ¬ (x : Nat) &&& 0x30 = 0x20)) := by decide
  exact h ⟨b, hb⟩

/-- The validator only ever answers 0, 2, 3 or 4. -/
lemma is_valid_utf8_values (w : List Nat) :
    is_valid_utf8 w = 0 ∨ is_valid_utf8 w = 2 ∨ is_valid_utf8 w = 3 ∨
      is_valid_utf8 w = 4 := by
  unfold is_valid_utf8
  split_ifs <;> omega

/-- A window the validator declares 2 bytes long has the lead `0x20` bit
clear. -/
lemma bits_of_valid_two (w : List Nat) (h : is_valid_utf8 w = 2) :
    w.getD 0 0 &&& 0x20 = 0 := by
  unfold is_valid_utf8 at h
  split_ifs at h <;> first | omega | assumption

/-- A window the validator declares 3 bytes long has the lead `0x20` bit set
and the `0x10` bit clear. -/
lemma bits_of_valid_three (w : List Nat) (h : is_valid_utf8 w = 3) :
    ¬ w.getD 0 0 &&& 0x20 = 0 ∧ w.getD 0 0 &&& 0x10 = 0 := by
  unfold is_valid_utf8 at h
  split_ifs at h <;> first | omega | (constructor <;> assumption)

/-- A window the validator declares 4 bytes long has both the lead `0x20`
and `0x10` bits set. -/
lemma bits_of_valid_four (w : List Nat) (h : is_valid_utf8 w = 4) :
    ¬ w.getD 0 0 &&& 0x20 = 0 ∧ ¬ w.getD 0 0 &&& 0x10 = 0 := by
  unfold is_valid_utf8 at h
  split_ifs at h <;> first | omega | (constructor <;> assumption)

/-- C9: in Escape display mode the formatter emits `\u` plus hex digits
rebuilt from the lead byte's significant bits and 6 payload bits per
continuation byte: `C2 A2` renders as `¢`, and the 4-byte window
`F0 90 8D 88` renders as `Ѓ48` — the documented off-by-nibble quirk —
and deliberately not as the true code point `ဴ8`. -/
theorem display_utf8_char_escape_quirk :
    (display_utf8_char [0xc2, 0xa2] .Escape false).1 = "\\u00a2" ∧
    (display_utf8_char [0xf0, 0x90, 0x8d, 0x88] .Escape false).1 = "\\u040348" ∧
    (display_utf8_char [0xf0, 0x90, 0x8d, 0x88] .Escape false).1 ≠ "\\u10348" := by
  refine ⟨?_, ?_, ?_⟩ <;> decide

/-- C10: on every window the validator accepts (`is_valid_utf8` returns 2, 3
or 4) and for each of the four rendering display modes, `display_utf8_char`
reports exactly the validator's length, even though it recomputes it from
the lead byte's `0x30` bits alone. -/
theorem display_utf8_char_len_agrees_validator (w : List Nat)
    (display : UnicodeDisplayKind) (is_tty : Bool)
    (hd : display = .Escape ∨ display = .Highlight ∨ display = .Hex ∨ display = .Show)
    (hb : w.getD 0 0 < 256) (hv : 2 ≤ is_valid_utf8 w) :
    (display_utf8_char w display is_tty).2 = is_valid_utf8 w := by
  have hlen : (display_utf8_char w display is_tty).2 = display_utf8_len w := rfl
  rw [hlen]
  rcases is_valid_utf8_values w with h | h | h | h
  · exact absurd hv (by omega)
  · rw [h]
    have hbit := bits_of_valid_two w h
    simp only [display_utf8_len]
    rw [if_pos ((and30_cases _ hb).1 hbit)]
  · rw [h]
    obtain ⟨ha, hc⟩ := bits_of_valid_three w h
    obtain ⟨hn, hy⟩ := (and30_cases _ hb).2.1 ha hc
    simp only [display_utf8_len]
    rw [if_neg hn, if_pos hy]
  · rw [h]
    obtain ⟨ha, hc⟩ := bits_of_valid_four w h
    obtain ⟨hn, hn2⟩ := (and30_cases _ hb).2.2 ha hc
    simp only [display_utf8_len]
    rw [if_neg hn, if_neg hn2]

/-- Witness for C10 at the accepted 2-byte window `C2 A2` in Escape mode. -/
theorem display_utf8_char_len_agrees_validator_witness :
    (display_utf8_char [0xc2, 0xa2] .Escape false).2 = is_valid_utf8 [0xc2, 0xa2] :=
  display_utf8_char_len_agrees_validator [0xc2, 0xa2] .Escape false
    (Or.inl rfl) (by decide) (by decide)

end Strings

namespace Strings

/-- `MAX_KEEP_BACK_SIZE` from `strings.rs`. -/
def MAX_KEEP_BACK_SIZE : Nat := 4

/-- Big-endian composition `result = (result << 8) | (byte & 0xff)` folded
over a byte list, as both `read_symbol` loops perform it. -/
def compose_be (acc : Nat) (bs : List Nat) : Nat :=
  bs.foldl (fun a b => (a <<< 8) ||| (b &&& 0xff)) acc

/-- The little-endian byte swap `read_symbol` applies after big-endian
composition. -/
def apply_endian (encoding : EncodingKind) (result : Nat) : Nat :=
  match encoding with
  | .LittleEndian16 => to_little_endian_16 result
  | .LittleEndian32 => to_little_endian_32 result
  | _ => result

lemma num_bytes_pos (encoding : EncodingKind) : 1 ≤ encoding.num_bytes := by
  cases encoding <;> simp [EncodingKind.num_bytes]

/-- The slice-backed Symbol Source (`ByteArrayHolder` in `strings.rs`). -/
structure ByteArrayHolder where
  inner : List Nat
  position : Nat
deriving DecidableEq, Repr

/-- The byte-reading `while` loop of `ByteArrayHolder::read_symbol`;
`remaining` is `encoding.num_bytes() - num_read`, the loop-guard count. -/
def read_symbol_loop (inner : List Nat) (position : Nat) :
    Nat → Nat → Nat → Nat × Nat
  | 0, numRead, result => (result, numRead)
  | remaining + 1, numRead, result =>
    if position + numRead < inner.length then
      read_symbol_loop inner position remaining (numRead + 1)
        ((result <<< 8) ||| (inner.getD (position + numRead) 0 &&& 0xff))
    else (result, numRead)

/-- `ByteArrayHolder::read_symbol`; the mutated `self` is returned next to
the Rust return value. -/
def ByteArrayHolder.read_symbol (h : ByteArrayHolder) (encoding : EncodingKind) :
    Option ((Nat × Nat) × ByteArrayHolder) :=
  if h.inner.isEmpty then none
  else
    let r := read_symbol_loop h.inner h.position encoding.num_bytes 0 0
    if r.2 = 0 then none
    else some ((apply_endian encoding r.1, r.2),
               { h with position := h.position + r.2 })

/-- `ByteArrayHolder::read_byte` (`read_symbol` at 8-bit width, low byte). -/
def ByteArrayHolder.read_byte (h : ByteArrayHolder) : Option (Nat × ByteArrayHolder) :=
  match h.read_symbol .Bit8 with
  | some x => some (x.1.1 &&& 0xff, x.2)
  | none => none

/-- `ByteArrayHolder::seek_back` (`self.position -= num_bytes`; the scanner
only ever rewinds over bytes it just consumed, so the `usize` subtraction
is in range and is modeled by truncated subtraction). -/
def ByteArrayHolder.seek_back (h : ByteArrayHolder) (num_bytes : Nat) : ByteArrayHolder :=
  { h with position := h.position - num_bytes }

/-- The stream-backed Symbol Source (`ReaderWithSeek` in `strings.rs`):
`stream` is what the boxed reader has not yet delivered, `back_buf` the
retained ring of recent bytes, `back_pos` the un-read cursor. -/
structure ReaderWithSeek where
  stream : List Nat
  back_buf : List Nat
  back_pos : Nat
deriving DecidableEq, Repr

/-- The `while self.back_buf.len() > MAX_KEEP_BACK_SIZE { pop_front }`
compaction loop. -/
def trim_back (l : List Nat) : List Nat :=
  l.drop (l.length - MAX_KEEP_BACK_SIZE)

/-- The bytes the source will deliver next, in order: the un-read suffix of
the back buffer, then the rest of the stream. -/
def ReaderWithSeek.pending (s : ReaderWithSeek) : List Nat :=
  s.back_buf.drop (s.back_buf.length - s.back_pos) ++ s.stream

/-- The structural invariant every reachable `ReaderWithSeek` satisfies: the
un-read cursor stays within the retained buffer, which holds at most
`MAX_KEEP_BACK_SIZE` bytes. -/
def ReaderWithSeek.wf (s : ReaderWithSeek) : Prop :=
  s.back_pos ≤ s.back_buf.length ∧ s.back_buf.length ≤ MAX_KEEP_BACK_SIZE

instance (s : ReaderWithSeek) : Decidable s.wf := by
  unfold ReaderWithSeek.wf; infer_instance

/-- The byte-reading `while` loop of `ReaderWithSeek::read_symbol`. -/
def rws_read_symbol_loop :
    Nat → ReaderWithSeek → Nat → Nat → (Nat × Nat) × ReaderWithSeek
  | 0, s, numRead, result => ((result, numRead), s)
  | remaining + 1, s, numRead, result =>
    if 0 < s.back_pos then
      let current := s.back_buf.getD (s.back_buf.length - s.back_pos) 0
      rws_read_symbol_loop remaining
        { s with back_pos := s.back_pos - 1, back_buf := trim_back s.back_buf }
        (numRead + 1) ((result <<< 8) ||| (current &&& 0xff))
    else
      match s.stream with
      | [] => ((result, numRead), s)
      | b :: rest =>
        rws_read_symbol_loop remaining
          { stream := rest, back_buf := trim_back (s.back_buf ++ [b]), back_pos := 0 }
          (numRead + 1) ((result <<< 8) ||| (b &&& 0xff))

/-- `ReaderWithSeek::read_symbol`. -/
def ReaderWithSeek.read_symbol (s : ReaderWithSeek) (encoding : EncodingKind) :
    Option ((Nat × Nat) × ReaderWithSeek) :=
  let r := rws_read_symbol_loop encoding.num_bytes s 0 0
  if r.1.2 = 0 then none
  else some ((apply_endian encoding r.1.1, r.1.2), r.2)

/-- `ReaderWithSeek::read_byte`. -/
def ReaderWithSeek.read_byte (s : ReaderWithSeek) : Option (Nat × ReaderWithSeek) :=
  match s.read_symbol .Bit8 with
  | some x => some (x.1.1 &&& 0xff, x.2)
  | none => none

/-- `ReaderWithSeek::seek_back`: `self.back_pos += num_bytes` followed by the
bound check whose `panic!` branch becomes `none`. -/
def ReaderWithSeek.seek_back (s : ReaderWithSeek) (num_bytes : Nat) :
    Option ReaderWithSeek :=
  if s.back_buf.length < s.back_pos + num_bytes then none
  else some { s with back_pos := s.back_pos + num_bytes }

end Strings

namespace Strings

lemma compose_be_cons (acc b : Nat) (bs : List Nat) :
    compose_be acc (b :: bs) = compose_be ((acc <<< 8) ||| (b &&& 0xff)) bs := by
  simp [compose_be]

/-- What the slice-backed read loop computes: it delivers
`min remaining (bytes left)` further bytes, big-endian composed. -/
lemma read_symbol_loop_spec (inner : List Nat) (position : Nat) :
    ∀ remaining numRead result,
      read_symbol_loop inner position remaining numRead result =
        (compose_be result ((inner.drop (position + numRead)).take
            (min remaining (inner.length - (position + numRead)))),
         numRead + min remaining (inner.length - (position + numRead))) := by
  intro remaining
  induction remaining with
  | zero =>
    intro numRead result
    simp [read_symbol_loop, compose_be]
  | succ r ih =>
    intro numRead result
    unfold read_symbol_loop
    by_cases hp : position + numRead < inner.length
    · rw [if_pos hp, ih]
      have hmin : min (r + 1) (inner.length - (position + numRead)) =
          min r (inner.length - (position + (numRead + 1))) + 1 := by omega
      have hdrop : inner.drop (position + numRead) =
          inner.getD (position + numRead) 0 :: inner.drop (position + (numRead + 1)) := by
        rw [List.getD_eq_getElem inner 0 hp]
        have := List.drop_eq_getElem_cons hp
        simpa [Nat.add_assoc] using this
      rw [hmin, hdrop, List.take_succ_cons, compose_be_cons, Prod.mk.injEq]
      exact ⟨rfl, by omega⟩
    · rw [if_neg hp]
      have h0 : inner.length - (position + numRead) = 0 := by omega
      simp [h0, compose_be]

/-- `trim_back` keeps the most recent `MAX_KEEP_BACK_SIZE` bytes. -/
lemma trim_back_length (l : List Nat) :
    (trim_back l).length = min l.length MAX_KEEP_BACK_SIZE := by
  simp [trim_back]
  omega

lemma trim_back_of_le (l : List Nat) (h : l.length ≤ MAX_KEEP_BACK_SIZE) :
    trim_back l = l := by
  unfold trim_back
  rw [Nat.sub_eq_zero_of_le h, List.drop_zero]

/-- What the stream-backed read loop computes, under the structural
invariant: it delivers `min remaining (pending bytes)` bytes big-endian
composed, leaves the rest pending, and preserves the invariant. -/
lemma rws_read_symbol_loop_spec :
    ∀ (remaining : Nat) (s : ReaderWithSeek) (numRead result : Nat), s.wf →
      (rws_read_symbol_loop remaining s numRead result).1 =
        (compose_be result (s.pending.take (min remaining s.pending.length)),
         numRead + min remaining s.pending.length) ∧
      (rws_read_symbol_loop remaining s numRead result).2.pending =
        s.pending.drop (min remaining s.pending.length) ∧
      (rws_read_symbol_loop remaining s numRead result).2.wf := by
  intro remaining
  induction remaining with
  | zero =>
    intro s numRead result hwf
    simp [rws_read_symbol_loop, compose_be, hwf]
  | succ r ih =>
    intro s numRead result hwf
    obtain ⟨hbp, hlen⟩ := hwf
    unfold rws_read_symbol_loop
    by_cases hp : 0 < s.back_pos
    · rw [if_pos hp]
      have htrim : trim_back s.back_buf = s.back_buf := trim_back_of_le _ hlen
      set s1 : ReaderWithSeek :=
        { s with back_pos := s.back_pos - 1, back_buf := trim_back s.back_buf } with hs1
      have hwf1 : s1.wf := by
        constructor <;> simp [hs1, htrim] <;> omega
      have hidx : s.back_buf.length - s.back_pos < s.back_buf.length := by omega
      have hpend : s.pending =
          s.back_buf.getD (s.back_buf.length - s.back_pos) 0 :: s1.pending := by
        unfold ReaderWithSeek.pending
        simp only [hs1, htrim]
        rw [List.getD_eq_getElem s.back_buf 0 hidx]
        have hd := List.drop_eq_getElem_cons hidx
        have harith : s.back_buf.length - s.back_pos + 1 =
            s.back_buf.length - (s.back_pos - 1) := by omega
        rw [← List.cons_append, ← harith, ← hd]
      obtain ⟨h1, h2, h3⟩ := ih s1 (numRead + 1)
        ((result <<< 8) ||| (s.back_buf.getD (s.back_buf.length - s.back_pos) 0 &&& 0xff)) hwf1
      refine ⟨?_, ?_, h3⟩
      · rw [h1, hpend]
        have hmin : min (r + 1) (s1.pending.length + 1) = min r s1.pending.length + 1 := by
          omega
        rw [List.length_cons, hmin, List.take_succ_cons, compose_be_cons, Prod.mk.injEq]
        exact ⟨rfl, by omega⟩
      · rw [h2, hpend]
        have hmin : min (r + 1) (s1.pending.length + 1) = min r s1.pending.length + 1 := by
          omega
        rw [List.length_cons, hmin, List.drop_succ_cons]
    · rw [if_neg hp]
      have hbp0 : s.back_pos = 0 := by omega
      have hpend : s.pending = s.stream := by
        unfold ReaderWithSeek.pending
        rw [hbp0, Nat.sub_zero, List.drop_length, List.nil_append]
      match hst : s.stream with
      | [] =>
        simp only []
        refine ⟨?_, ?_, ⟨hbp, hlen⟩⟩
        · rw [hpend, hst]
          simp [compose_be]
        · rw [hpend, hst]
          simp
      | b :: rest =>
        simp only []
        set s1 : ReaderWithSeek :=
          { stream := rest, back_buf := trim_back (s.back_buf ++ [b]), back_pos := 0 } with hs1
        have hwf1 : s1.wf := by
          refine ⟨by simp [hs1], ?_⟩
          simp only [hs1]
          rw [trim_back_length]
          omega
        have hpend1 : s1.pending = rest := by
          unfold ReaderWithSeek.pending
          simp [hs1, List.drop_length]
        obtain ⟨h1, h2, h3⟩ := ih s1 (numRead + 1) ((result <<< 8) ||| (b &&& 0xff)) hwf1
        refine ⟨?_, ?_, h3⟩
        · rw [h1, hpend, hst, hpend1]
          have hmin : min (r + 1) (rest.length + 1) = min r rest.length + 1 := by omega
          rw [List.length_cons, hmin, List.take_succ_cons, compose_be_cons, Prod.mk.injEq]
          exact ⟨rfl, by omega⟩
        · rw [h2, hpend, hst, hpend1]
          have hmin : min (r + 1) (rest.length + 1) = min r rest.length + 1 := by omega
          rw [List.length_cons, hmin, List.drop_succ_cons]

end Strings

namespace Strings

/-- Closed form of `ByteArrayHolder::read_symbol`. -/
lemma byte_array_read_symbol_eq (h : ByteArrayHolder) (encoding : EncodingKind) :
    h.read_symbol encoding =
      (if h.inner.isEmpty then none
       else if min encoding.num_bytes (h.inner.length - h.position) = 0 then none
       else some
         ((apply_endian encoding (compose_be 0 ((h.inner.drop h.position).take
             (min encoding.num_bytes (h.inner.length - h.position)))),
           min encoding.num_bytes (h.inner.length - h.position)),
          { h with position :=
              h.position + min encoding.num_bytes (h.inner.length - h.position) })) := by
  have hloop := read_symbol_loop_spec h.inner h.position encoding.num_bytes 0 0
  rw [Nat.add_zero] at hloop
  unfold ByteArrayHolder.read_symbol
  rw [hloop]
  simp

/-- Closed form of `ReaderWithSeek::read_symbol` under the invariant. -/
lemma reader_read_symbol_eq (s : ReaderWithSeek) (encoding : EncodingKind)
    (hwf : s.wf) :
    s.read_symbol encoding =
      (if min encoding.num_bytes s.pending.length = 0 then none
       else some
         ((apply_endian encoding (compose_be 0 (s.pending.take
             (min encoding.num_bytes s.pending.length))),
           min encoding.num_bytes s.pending.length),
          (rws_read_symbol_loop encoding.num_bytes s 0 0).2)) := by
  obtain ⟨h1, _, _⟩ := rws_read_symbol_loop_spec encoding.num_bytes s 0 0 hwf
  unfold ReaderWithSeek.read_symbol
  simp only [h1]
  simp

/-- C6: for both Symbol Source implementations and every encoding,
`read_symbol` answers `None` exactly when zero bytes are available;
otherwise it reads `min(width, available)` bytes — in particular, with
between 1 and `width - 1` bytes left at end-of-input it returns the partial
big-endian-composed value with the partial count, byte-swapped for the
little-endian variants — and it advances the read position (the pending
byte sequence, for the stream source) by exactly the bytes actually read. -/
theorem read_symbol_none_partial_advance :
    (∀ (h : ByteArrayHolder) (encoding : EncodingKind),
      (h.read_symbol encoding = none ↔ h.inner.length ≤ h.position) ∧
      (∀ v n h2, h.read_symbol encoding = some ((v, n), h2) →
        n = min encoding.num_bytes (h.inner.length - h.position) ∧
        v = apply_endian encoding (compose_be 0 ((h.inner.drop h.position).take n)) ∧
        h2.inner = h.inner ∧ h2.position = h.position + n)) ∧
    (∀ (s : ReaderWithSeek) (encoding : EncodingKind), s.wf →
      (s.read_symbol encoding = none ↔ s.pending = []) ∧
      (∀ v n s2, s.read_symbol encoding = some ((v, n), s2) →
        n = min encoding.num_bytes s.pending.length ∧
        v = apply_endian encoding (compose_be 0 (s.pending.take n)) ∧
        s2.pending = s.pending.drop n ∧ s2.wf)) := by
  have hnbp := num_bytes_pos
  constructor
  · intro h encoding
    rw [byte_array_read_symbol_eq]
    constructor
    · split_ifs with he hz
      · simp only [List.isEmpty_iff] at he
        simp [he]
      · simp only [true_iff]
        have := hnbp encoding
        omega
      · simp only [List.isEmpty_iff] at he
        constructor
        · intro hc
          simp at hc
        · intro hle
          exfalso
          have := hnbp encoding
          omega
    · intro v n h2 hsome
      split_ifs at hsome with he hz
      simp only [Option.some.injEq, Prod.mk.injEq] at hsome
      obtain ⟨⟨hv, hn⟩, hh2⟩ := hsome
      subst hn
      exact ⟨rfl, hv.symm, by rw [← hh2], by rw [← hh2]⟩
  · intro s encoding hwf
    obtain ⟨h1, h2, h3⟩ := rws_read_symbol_loop_spec encoding.num_bytes s 0 0 hwf
    rw [reader_read_symbol_eq s encoding hwf]
    constructor
    · split_ifs with hz
      · simp only [true_iff]
        have := hnbp encoding
        have : s.pending.length = 0 := by omega
        exact List.length_eq_zero.mp this
      · constructor
        · intro hc
          simp at hc
        · intro hp
          exfalso
          rw [hp] at hz
          simp at hz
    · intro v n s2 hsome
      split_ifs at hsome with hz
      simp only [Option.some.injEq, Prod.mk.injEq] at hsome
      obtain ⟨⟨hv, hn⟩, hs2⟩ := hsome
      subst hn
      refine ⟨rfl, hv.symm, ?_, ?_⟩
      · rw [← hs2, h2]
      · rw [← hs2]
        exact h3

/-- Witness for C6: a partial 1-byte read at end-of-input for the
little-endian 16-bit encoding on the slice source (value byte-swapped to
`0x3400`, count 1, position advanced by 1), and a partial 2-byte read for
the big-endian 32-bit encoding on the stream source. -/
theorem read_symbol_none_partial_advance_witness :
    (1 = min (EncodingKind.num_bytes .LittleEndian16)
        (([0x12, 0x23, 0x34] : List Nat).length - 2) ∧
      0x3400 = apply_endian .LittleEndian16 (compose_be 0
        ((([0x12, 0x23, 0x34] : List Nat).drop 2).take 1))) ∧
    (2 = min (EncodingKind.num_bytes .BigEndian32)
        (ReaderWithSeek.pending ⟨[0xaa], [0x12, 0x23], 1⟩).length ∧
      0x23aa = apply_endian .BigEndian32 (compose_be 0
        ((ReaderWithSeek.pending ⟨[0xaa], [0x12, 0x23], 1⟩).take 2))) := by
  constructor
  · have ha := (read_symbol_none_partial_advance.1
      ⟨[0x12, 0x23, 0x34], 2⟩ .LittleEndian16).2 0x3400 1
      ⟨[0x12, 0x23, 0x34], 3⟩ (by decide)
    exact ⟨ha.1, ha.2.1⟩
  · have hb := (read_symbol_none_partial_advance.2
      ⟨[0xaa], [0x12, 0x23], 1⟩ .BigEndian32 (by decide)).2 0x23aa 2
      ⟨[], [0x12, 0x23, 0xaa], 0⟩ (by decide)
    exact ⟨hb.1, hb.2.1⟩

/-- C7: `seek_back(n)` on the stream-backed source is fatal (`panic!`,
modeled as `none`) exactly when the total un-read amount `back_pos + n`
would exceed the retained back-buffer length; otherwise it rewinds the
cursor by exactly `n`, so that the `n` retained bytes just before the old
cursor are re-delivered ahead of everything that was already pending. -/
theorem seek_back_panic_or_rewind (s : ReaderWithSeek) (n : Nat) :
    (s.seek_back n = none ↔ s.back_buf.length < s.back_pos + n) ∧
    (∀ s2, s.seek_back n = some s2 →
      s2.back_pos = s.back_pos + n ∧ s2.back_buf = s.back_buf ∧
      s2.stream = s.stream ∧
      s2.pending =
        (s.back_buf.drop (s.back_buf.length - s.back_pos - n)).take n ++ s.pending) := by
  constructor
  · unfold ReaderWithSeek.seek_back
    split_ifs with hlt
    · simp [hlt]
    · simp [hlt]
  · intro s2 hsome
    unfold ReaderWithSeek.seek_back at hsome
    split_ifs at hsome with hlt
    have hs2 := Option.some.inj hsome
    refine ⟨by rw [← hs2], by rw [← hs2], by rw [← hs2], ?_⟩
    rw [← hs2]
    clear hs2 hsome
    unfold ReaderWithSeek.pending
    simp only []
    have harith : s.back_buf.length - (s.back_pos + n) =
        s.back_buf.length - s.back_pos - n := by omega
    rw [harith]
    have hsplit : s.back_buf.drop (s.back_buf.length - s.back_pos - n) =
        (s.back_buf.drop (s.back_buf.length - s.back_pos - n)).take n ++
          s.back_buf.drop (s.back_buf.length - s.back_pos) := by
      conv_lhs => rw [← List.take_append_drop n
        (s.back_buf.drop (s.back_buf.length - s.back_pos - n))]
      congr 1
      rw [List.drop_drop]
      congr 1
      omega
    conv_lhs => rw [hsplit]
    rw [List.append_assoc]

/-- Witness for C7: un-reading 2 bytes of `⟨[], [1, 2, 3], 0⟩` succeeds and
re-delivers `[2, 3]`; the panic case is exercised by the `= none` half. -/
theorem seek_back_panic_or_rewind_witness :
    ((ReaderWithSeek.mk [] [1, 2, 3] 0).seek_back 4 = none ∧
      (3 : Nat) < 0 + 4) ∧
    ((2 : Nat) = 0 + 2 ∧
      ReaderWithSeek.pending ⟨[], [1, 2, 3], 2⟩ =
        (([1, 2, 3] : List Nat).drop (3 - 0 - 2)).take 2 ++
          ReaderWithSeek.pending ⟨[], [1, 2, 3], 0⟩) := by
  constructor
  · exact ⟨(seek_back_panic_or_rewind ⟨[], [1, 2, 3], 0⟩ 4).1.mpr (by decide), by decide⟩
  · have h := (seek_back_panic_or_rewind ⟨[], [1, 2, 3], 0⟩ 2).2
      ⟨[], [1, 2, 3], 2⟩ (by decide)
    exact ⟨h.1, h.2.2.2⟩

end Strings

namespace Strings

/-- `RadixKind` from `strings.rs`. -/
inductive RadixKind where
  | Oct
  | Dec
  | Hex
deriving DecidableEq, Repr

/-- The Scan Configuration (`Options` in `strings.rs`); `min_length` is the
Rust `u16` (all scanner arithmetic on it stays far below `2^16`), the
output separator is carried as raw bytes. -/
structure Options where
  datasection_only : Bool
  print_filenames : Bool
  min_length : Nat
  include_all_whitespace : Bool
  print_addresses : Bool
  address_radix : RadixKind
  encoding : EncodingKind
  output_separator : Option (List Nat)
  unicode_display : UnicodeDisplayKind
deriving Repr

/-- `Options::default()` from `strings.rs`. -/
def Options.default : Options :=
  ⟨false, false, 4, false, false, .Hex, .Bit7, none, .Default⟩

/-- `data.read_symbol(&encoding)` on the slice source, returning the value,
the byte count and the new position. -/
def read_symbol_at (inner : List Nat) (pos : Nat) (encoding : EncodingKind) :
    Option ((Nat × Nat) × Nat) :=
  Option.map (fun x => (x.1, x.2.position))
    (ByteArrayHolder.read_symbol ⟨inner, pos⟩ encoding)

/-- A successful `read_symbol` reads at least one byte and advances the
position by exactly the count it reports. -/
lemma read_symbol_at_some (inner : List Nat) (pos : Nat) (encoding : EncodingKind)
    (v r pos1 : Nat) (h : read_symbol_at inner pos encoding = some ((v, r), pos1)) :
    1 ≤ r ∧ pos1 = pos + r := by
  unfold read_symbol_at at h
  rw [byte_array_read_symbol_eq] at h
  split_ifs at h with he hz
  · simp at h
  · simp at h
  · dsimp only [Option.map] at h
    dsimp only at h hz
    simp only [Option.some.injEq, Prod.mk.injEq] at h
    obtain ⟨⟨-, hr⟩, hp⟩ := h
    have := num_bytes_pos encoding
    omega

/-- Outcome of one round of the probe phase of
`find_matching_ascii_sequence`. -/
inductive ProbeResult where
  | eof
  | fail (newSearch newPos : Nat)
  | ok (pos cur : Nat) (buf : List Nat)
deriving DecidableEq, Repr

/-- The `while i < options.min_length` probe loop of
`find_matching_ascii_sequence` (`strings.rs` 463-483): `remaining` is
`min_length - i`, `cur` is `current_address`, `pos` the slice position.  On
a non-graphic symbol the source sets
`search_start_address = current_address - (num_bytes - 1)` and issues
`seek_back(read - 1)`. -/
def probe_loop (opts : Options) (inner : List Nat) :
    Nat → Nat → Nat → List Nat → ProbeResult
  | 0, pos, cur, buf => .ok pos cur buf
  | remaining + 1, pos, cur, buf =>
    match read_symbol_at inner pos opts.encoding with
    | none => .eof
    | some ((symbol, read), pos1) =>
      if 255 < symbol ∨ char_is_printable (symbol % 256) opts.encoding
          opts.include_all_whitespace = false then
        .fail (cur + read - (opts.encoding.num_bytes - 1)) (pos1 - (read - 1))
      else
        probe_loop opts inner remaining pos1 (cur + read) (buf ++ [symbol % 256])

/-- The `while should_retry` loop of `find_matching_ascii_sequence`, fueled:
every retry advances the slice position by at least one byte, so
`inner.length + 1` rounds always finish; running out of fuel reports `none`
(no run), exactly like end-of-input. -/
def find_matching_ascii_sequence (opts : Options) (inner : List Nat) :
    Nat → Nat → Nat → Option (Nat × List Nat × Nat)
  | 0, _, _ => none
  | fuel + 1, searchStart, pos =>
    match probe_loop opts inner opts.min_length pos searchStart [] with
    | .eof => none
    | .fail ns np => find_matching_ascii_sequence opts inner fuel ns np
    | .ok pos1 cur buf => some (cur - buf.length, buf, pos1)

/-- The post-probe extension loop of `print_strings` (`strings.rs` 409-423):
append printable symbols until a non-graphic symbol (seek back its full
width) or end-of-input. -/
def extension_loop (opts : Options) (inner : List Nat) :
    Nat → Nat → Nat → List Nat → Nat × Nat × List Nat
  | 0, pos, cur, buf => (pos, cur, buf)
  | fuel + 1, pos, cur, buf =>
    match read_symbol_at inner pos opts.encoding with
    | none => (pos, cur, buf)
    | some ((character, read), pos1) =>
      if 255 < character ∨ char_is_printable (character % 256) opts.encoding
          opts.include_all_whitespace = false then
        (pos1 - read, cur, buf)
      else
        extension_loop opts inner fuel pos1 (cur + read) (buf ++ [character % 256])

/-- One emitted run of the fixed-width scanner: the printed offset, the
content bytes written before the separator, and the `current_address` at
which the next probe starts. -/
structure FWRun where
  addr : Nat
  content : List Nat
  resume : Nat
deriving DecidableEq, Repr

/-- The big loop of `print_strings` (Default display path), returning the
emitted runs; `fuel` bounds the number of runs. -/
def print_strings_runs (opts : Options) (inner : List Nat) :
    Nat → Nat → Nat → List FWRun
  | 0, _, _ => []
  | fuel + 1, searchStart, pos =>
    match find_matching_ascii_sequence opts inner (inner.length + 1) searchStart pos with
    | none => []
    | some (addr, buf, pos1) =>
      let cur := addr + buf.length
      let e := extension_loop opts inner (inner.length + 1) pos1 cur buf
      ⟨addr, e.2.2, e.2.1⟩ :: print_strings_runs opts inner fuel e.2.1 e.1

/-- A successful probe extends the buffer by exactly `remaining` symbols
(one pushed byte per symbol). -/
lemma probe_loop_ok_length (opts : Options) (inner : List Nat) :
    ∀ remaining pos cur buf pos1 cur1 buf1,
      probe_loop opts inner remaining pos cur buf = .ok pos1 cur1 buf1 →
      buf1.length = buf.length + remaining := by
  intro remaining
  induction remaining with
  | zero =>
    intro pos cur buf pos1 cur1 buf1 h
    simp only [probe_loop, ProbeResult.ok.injEq] at h
    obtain ⟨-, -, hb⟩ := h
    simp [← hb]
  | succ r ih =>
    intro pos cur buf pos1 cur1 buf1 h
    unfold probe_loop at h
    match hread : read_symbol_at inner pos opts.encoding with
    | none => rw [hread] at h; exact absurd h (by simp)
    | some ((symbol, read), p1) =>
      rw [hread] at h
      dsimp only at h
      split_ifs at h with hbad
      have := ih p1 (cur + read) (buf ++ [symbol % 256]) pos1 cur1 buf1 h
      simp only [List.length_append, List.length_cons, List.length_nil] at this
      omega

end Strings

namespace Strings

/-- A successful search returns a buffer of exactly `min_length` symbols. -/
lemma find_matching_length (opts : Options) (inner : List Nat) :
    ∀ fuel searchStart pos addr buf pos1,
      find_matching_ascii_sequence opts inner fuel searchStart pos =
        some (addr, buf, pos1) →
      buf.length = opts.min_length := by
  intro fuel
  induction fuel with
  | zero =>
    intro searchStart pos addr buf pos1 h
    exact absurd h (by simp [find_matching_ascii_sequence])
  | succ f ih =>
    intro searchStart pos addr buf pos1 h
    unfold find_matching_ascii_sequence at h
    match hp : probe_loop opts inner opts.min_length pos searchStart [] with
    | .eof => rw [hp] at h; exact absurd h (by simp)
    | .fail ns np =>
      rw [hp] at h
      exact ih ns np addr buf pos1 h
    | .ok p1 cur buf1 =>
      rw [hp] at h
      simp only [Option.some.injEq, Prod.mk.injEq] at h
      obtain ⟨-, hb, -⟩ := h
      have := probe_loop_ok_length opts inner opts.min_length pos searchStart [] p1 cur buf1 hp
      simp only [List.length_nil, Nat.zero_add] at this
      rw [← hb]
      exact this

/-- The extension loop only appends to the buffer. -/
lemma extension_loop_extends (opts : Options) (inner : List Nat) :
    ∀ fuel pos cur buf,
      buf.length ≤ (extension_loop opts inner fuel pos cur buf).2.2.length := by
  intro fuel
  induction fuel with
  | zero =>
    intro pos cur buf
    simp [extension_loop]
  | succ f ih =>
    intro pos cur buf
    unfold extension_loop
    match hread : read_symbol_at inner pos opts.encoding with
    | none => simp
    | some ((character, read), pos1) =>
      dsimp only
      split_ifs with hbad
      · simp
      · have := ih pos1 (cur + read) (buf ++ [character % 256])
        simp only [List.length_append, List.length_cons, List.length_nil] at this
        omega

/-- Every run the fixed-width scanner emits carries at least `min_length`
symbols (the probe contributes exactly `min_length`, the extension only
appends). -/
lemma print_strings_runs_min_length (opts : Options) (inner : List Nat) :
    ∀ fuel searchStart pos run,
      run ∈ print_strings_runs opts inner fuel searchStart pos →
      opts.min_length ≤ run.content.length := by
  intro fuel
  induction fuel with
  | zero =>
    intro searchStart pos run hrun
    exact absurd hrun (by simp [print_strings_runs])
  | succ f ih =>
    intro searchStart pos run hrun
    unfold print_strings_runs at hrun
    match hf : find_matching_ascii_sequence opts inner (inner.length + 1) searchStart pos with
    | none => rw [hf] at hrun; exact absurd hrun (by simp)
    | some (addr, buf, pos1) =>
      rw [hf] at hrun
      simp only [List.mem_cons] at hrun
      rcases hrun with hhead | htail
      · have hlen := find_matching_length opts inner (inner.length + 1) searchStart pos
          addr buf pos1 hf
        have hext := extension_loop_extends opts inner (inner.length + 1) pos1
          (addr + buf.length) buf
        rw [hhead]
        simp only []
        omega
      · exact ih _ _ run htail

end Strings

namespace Strings

/-- Counterexample to C2 as stated: probing `61 00` with `min_length = 2`
(7-bit encoding), the probe starts at offset 0 and its second symbol — at
offset 1 — is non-graphic.  The code resynchronizes the search position to
offset 2, not to one byte past the probe's start (offset 1). -/
theorem probe_resync_counterexample :
    probe_loop { Options.default with min_length := 2 } [0x61, 0x00] 2 0 0 [] =
      .fail 2 2 ∧ (2 : Nat) ≠ 0 + 1 := by
  constructor
  · decide
  · decide

/-- C2 amended: whenever a symbol read during the probe fails the
Classifier, the probe is abandoned and the search position is
resynchronized to one byte past the FAILING SYMBOL's start (a one-raw-byte
slide past the symbol that failed, not a full symbol width, and not the
probe's start). -/
theorem probe_resync_one_past_failing_symbol (opts : Options) (inner : List Nat) :
    ∀ remaining pos cur buf ns np,
      probe_loop opts inner remaining pos cur buf = .fail ns np →
      ∃ q v r q1,
        read_symbol_at inner q opts.encoding = some ((v, r), q1) ∧
        (255 < v ∨ char_is_printable (v % 256) opts.encoding
          opts.include_all_whitespace = false) ∧
        np = q + 1 := by
  intro remaining
  induction remaining with
  | zero =>
    intro pos cur buf ns np h
    exact absurd h (by simp [probe_loop])
  | succ r ih =>
    intro pos cur buf ns np h
    unfold probe_loop at h
    match hread : read_symbol_at inner pos opts.encoding with
    | none => rw [hread] at h; exact absurd h (by simp)
    | some ((symbol, read), p1) =>
      rw [hread] at h
      dsimp only at h
      split_ifs at h with hbad
      · simp only [ProbeResult.fail.injEq] at h
        obtain ⟨-, hnp⟩ := h
        obtain ⟨hr1, hp1⟩ := read_symbol_at_some inner pos opts.encoding symbol read p1 hread
        exact ⟨pos, symbol, read, p1, hread, hbad, by omega⟩
      · exact ih p1 (cur + read) (buf ++ [symbol % 256]) ns np h

/-- Witness for the amended C2 at the `61 00` probe: the failing symbol
starts at offset 1 and the probe resynchronizes to offset 2 = 1 + 1. -/
theorem probe_resync_one_past_failing_symbol_witness :
    ∃ q v r q1,
      read_symbol_at [0x61, 0x00] q
        ({ Options.default with min_length := 2 } : Options).encoding =
        some ((v, r), q1) ∧
      (255 < v ∨ char_is_printable (v % 256)
        ({ Options.default with min_length := 2 } : Options).encoding
        ({ Options.default with min_length := 2 } : Options).include_all_whitespace = false) ∧
      (2 : Nat) = q + 1 :=
  probe_resync_one_past_failing_symbol { Options.default with min_length := 2 }
    [0x61, 0x00] 2 0 0 [] 2 2 (by decide)

/-- C3 fails on the code (the source's own `TODO wrong cast` at
`strings.rs` line 479): scanning `00 61 00 62 FF FF` as big-endian 16-bit
with `min_length = 1` emits the run `"ab"` with printed offset 1 and resumes
the next probe at offset 4, but printed offset + emitted content bytes is
1 + 2 = 3, and printed offset + raw bytes consumed for the run would be
1 + 4 = 5 — neither matches the resume offset, because `read_symbol`
consumes two raw bytes per symbol while the buffer accounting counts one. -/
theorem offsets_desync_on_wide_encoding :
    print_strings_runs { Options.default with min_length := 1, encoding := .BigEndian16 }
        [0x00, 0x61, 0x00, 0x62, 0xff, 0xff] 3 0 0 =
      [⟨1, [0x61, 0x62], 4⟩] ∧
    (1 + 2 ≠ 4) ∧ (1 + 4 ≠ 4) := by
  refine ⟨?_, by decide, by decide⟩
  decide

end Strings

namespace Strings

/-- `data.read_byte()` on the slice source, with the new position. -/
def read_byte_at (inner : List Nat) (pos : Nat) : Option (Nat × Nat) :=
  Option.map (fun x => (x.1.1 &&& 0xff, x.2.position))
    (ByteArrayHolder.read_symbol ⟨inner, pos⟩ .Bit8)

/-- Outcome of the probe phase of `print_unicode_stream`: the source either
`return`s at end-of-input, or breaks out with `min_length` units collected;
`fuelOut` only marks an exhausted iteration budget. -/
inductive UniProbeOut where
  | eofQuit
  | fuelOut
  | found (pos num_read num_chars num_print start_point : Nat) (print_buf : List Nat)
deriving DecidableEq, Repr

/-- The probe phase of `print_unicode_stream` (`strings.rs` 659-793): find
`min_length` printable units byte-at-a-time, peeking multi-byte UTF-8
candidates.  `print_buf` models the written prefix of the source's fixed
buffer (its length always equals `num_print`, and resetting `num_print`
restarts writing at the front, so the prefix is reset to `[]`).  The
source's `start_point = num_read - 1` runs after `num_read += 1`, so it
stores the pre-increment `num_read`; the `u16` counters are modeled as
unbounded naturals.  Each loop iteration consumes at least one net byte, so
`inner.length + 1` rounds of fuel complete any scan. -/
def uni_probe (opts : Options) (inner : List Nat) :
    Nat → Nat → Nat → Nat → Nat → Nat → List Nat → UniProbeOut
  | 0, _, _, _, _, _, _ => .fuelOut
  | fuel + 1, pos, num_read, num_chars, num_print, start_point, print_buf =>
    if opts.min_length ≤ num_chars then
      .found pos num_read num_chars num_print start_point print_buf
    else
      match read_byte_at inner pos with
      | none => .eofQuit
      | some (c, pos1) =>
        if char_is_printable c opts.encoding opts.include_all_whitespace = false then
          uni_probe opts inner fuel pos1 (num_read + 1) 0 0 start_point []
        else if c < 127 then
          uni_probe opts inner fuel pos1 (num_read + 1) (num_chars + 1) (num_print + 1)
            (if num_chars = 0 then num_read else start_point) (print_buf ++ [c])
        else if c < 0xc0 then
          uni_probe opts inner fuel pos1 (num_read + 1) 0 0
            (if num_chars = 0 then num_read else start_point) []
        else
          match read_byte_at inner pos1 with
          | none => .eofQuit
          | some (c1, pos2) =>
            if ¬ (c1 &&& 0xc0 = 0x80) then
              uni_probe opts inner fuel (pos2 - 1) (num_read + 2) 0 0
                (if num_chars = 0 then num_read else start_point) []
            else if c &&& 0x20 = 0 then
              if opts.unicode_display = .Invalid then
                uni_probe opts inner fuel (pos2 - 1) (num_read + 2) 0 0
                  (if num_chars = 0 then num_read else start_point) []
              else
                uni_probe opts inner fuel pos2 (num_read + 2) (num_chars + 1) (num_print + 2)
                  (if num_chars = 0 then num_read else start_point) (print_buf ++ [c, c1])
            else
              match read_byte_at inner pos2 with
              | none => .eofQuit
              | some (c2, pos3) =>
                if ¬ (c2 &&& 0xc0 = 0x80) then
                  uni_probe opts inner fuel (pos3 - 2) (num_read + 3) 0 0
                    (if num_chars = 0 then num_read else start_point) []
                else if c &&& 0x10 = 0 then
                  if opts.unicode_display = .Invalid then
                    uni_probe opts inner fuel (pos3 - 2) (num_read + 3) 0 0
                      (if num_chars = 0 then num_read else start_point) []
                  else
                    uni_probe opts inner fuel pos3 (num_read + 3) (num_chars + 1) (num_print + 3)
                      (if num_chars = 0 then num_read else start_point) (print_buf ++ [c, c1, c2])
                else
                  match read_byte_at inner pos3 with
                  | none => .eofQuit
                  | some (c3, pos4) =>
                    if ¬ (c3 &&& 0xc0 = 0x80) then
                      uni_probe opts inner fuel (pos4 - 3) (num_read + 4) 0 0
                        (if num_chars = 0 then num_read else start_point) []
                    else if opts.unicode_display = .Invalid then
                      uni_probe opts inner fuel (pos4 - 3) (num_read + 4) 0 0
                        (if num_chars = 0 then num_read else start_point) []
                    else
                      uni_probe opts inner fuel pos4 (num_read + 4) (num_chars + 1) (num_print + 4)
                        (if num_chars = 0 then num_read else start_point)
                        (print_buf ++ [c, c1, c2, c3])

/-- Outcome of the extension phase of `print_unicode_stream`: `return` at
end-of-input or `break` at a classification/UTF-8 failure. -/
inductive UniExtOut where
  | eofQuit
  | fuelOut
  | ended (pos num_read : Nat)
deriving DecidableEq, Repr

/-- The extension ("read unchecked bytes") phase of `print_unicode_stream`
(`strings.rs` 820-914).  The model tracks positions and counters; note the
source's `data.seek_back(1)` at lines 881 and 886 (3-byte candidate), where
the probe phase uses `seek_back(2)` for the same shapes. -/
def uni_ext (opts : Options) (inner : List Nat) :
    Nat → Nat → Nat → UniExtOut
  | 0, _, _ => .fuelOut
  | fuel + 1, pos, num_read =>
    match read_byte_at inner pos with
    | none => .eofQuit
    | some (c, pos1) =>
      if char_is_printable c opts.encoding opts.include_all_whitespace = false then
        .ended pos1 (num_read + 1)
      else if c < 127 then
        uni_ext opts inner fuel pos1 (num_read + 1)
      else if c < 0xc0 then
        .ended pos1 (num_read + 1)
      else
        match read_byte_at inner pos1 with
        | none => .eofQuit
        | some (c1, pos2) =>
          if ¬ (c1 &&& 0xc0 = 0x80) then
            .ended (pos2 - 1) (num_read + 2)
          else if c &&& 0x20 = 0 then
            if opts.unicode_display = .Invalid then .ended (pos2 - 1) (num_read + 2)
            else uni_ext opts inner fuel pos2 (num_read + 2)
          else
            match read_byte_at inner pos2 with
            | none => .eofQuit
            | some (c2, pos3) =>
              if ¬ (c2 &&& 0xc0 = 0x80) then
                .ended (pos3 - 1) (num_read + 3)
              else if c &&& 0x10 = 0 then
                if opts.unicode_display = .Invalid then .ended (pos3 - 1) (num_read + 3)
                else uni_ext opts inner fuel pos3 (num_read + 3)
              else
                match read_byte_at inner pos3 with
                | none => .eofQuit
                | some (c3, pos4) =>
                  if ¬ (c3 &&& 0xc0 = 0x80) then
                    .ended (pos4 - 3) (num_read + 4)
                  else if opts.unicode_display = .Invalid then
                    .ended (pos4 - 3) (num_read + 4)
                  else uni_ext opts inner fuel pos4 (num_read + 4)

/-- One emitted run of the Unicode scanner: printed offset, number of
decoded units collected by the probe, and the probed content bytes. -/
structure URun where
  addr : Nat
  units : Nat
  buf : List Nat
deriving DecidableEq, Repr

/-- The outer loop of `print_unicode_stream`: each round re-initializes its
counters (as the source does), probes for `min_length` units, emits the run
when found (the source's `num_chars >= min_length` emission guard is
exactly the probe's exit condition), extends it, and continues after the
extension's break; `address` is the caller-supplied base address, and the
run's printed offset is `address + start_point`. -/
def print_unicode_stream_runs (opts : Options) (inner : List Nat) (address : Nat) :
    Nat → Nat → List URun
  | 0, _ => []
  | fuel + 1, pos =>
    match uni_probe opts inner (inner.length + 1) pos 0 0 0 0 [] with
    | .eofQuit => []
    | .fuelOut => []
    | .found pos1 num_read num_chars _ start_point print_buf =>
      match uni_ext opts inner (inner.length + 1) pos1 num_read with
      | .eofQuit => [⟨address + start_point, num_chars, print_buf⟩]
      | .fuelOut => [⟨address + start_point, num_chars, print_buf⟩]
      | .ended pos2 _ =>
        ⟨address + start_point, num_chars, print_buf⟩ ::
          print_unicode_stream_runs opts inner address fuel pos2

end Strings

namespace Strings

set_option maxHeartbeats 3200000 in
/-- The probe phase only breaks out with at least `min_length` collected
units. -/
lemma uni_probe_found_min (opts : Options) (inner : List Nat) :
    ∀ fuel pos nr nc np sp buf pos1 nr1 nc1 np1 sp1 buf1,
      uni_probe opts inner fuel pos nr nc np sp buf =
        .found pos1 nr1 nc1 np1 sp1 buf1 →
      opts.min_length ≤ nc1 := by
  intro fuel
  induction fuel with
  | zero =>
    intro pos nr nc np sp buf pos1 nr1 nc1 np1 sp1 buf1 h
    exact absurd h (by simp [uni_probe])
  | succ f ih =>
    intro pos nr nc np sp buf pos1 nr1 nc1 np1 sp1 buf1 h
    unfold uni_probe at h
    by_cases hguard : opts.min_length ≤ nc
    · rw [if_pos hguard] at h
      simp only [UniProbeOut.found.injEq] at h
      omega
    · rw [if_neg hguard] at h
      repeat'
        first
          | split at h
          | exact UniProbeOut.noConfusion h
          | exact ih _ _ _ _ _ _ _ _ _ _ _ _ h

/-- Every run the Unicode scanner emits carries at least `min_length`
decoded units (the extension phase only prints more). -/
lemma print_unicode_stream_runs_min (opts : Options) (inner : List Nat)
    (address : Nat) :
    ∀ fuel pos run,
      run ∈ print_unicode_stream_runs opts inner address fuel pos →
      opts.min_length ≤ run.units := by
  intro fuel
  induction fuel with
  | zero =>
    intro pos run h
    exact absurd h (by simp [print_unicode_stream_runs])
  | succ f ih =>
    intro pos run hrun
    unfold print_unicode_stream_runs at hrun
    match hp : uni_probe opts inner (inner.length + 1) pos 0 0 0 0 [] with
    | .eofQuit => rw [hp] at hrun; exact absurd hrun (by simp)
    | .fuelOut => rw [hp] at hrun; exact absurd hrun (by simp)
    | .found pos1 nr nc np sp buf =>
      rw [hp] at hrun
      replace hrun : run ∈
          (match uni_ext opts inner (inner.length + 1) pos1 nr with
            | UniExtOut.eofQuit => [URun.mk (address + sp) nc buf]
            | UniExtOut.fuelOut => [URun.mk (address + sp) nc buf]
            | UniExtOut.ended pos2 _ =>
                URun.mk (address + sp) nc buf ::
                  print_unicode_stream_runs opts inner address f pos2) := hrun
      have hmin := uni_probe_found_min opts inner (inner.length + 1)
        pos 0 0 0 0 [] pos1 nr nc np sp buf hp
      match he : uni_ext opts inner (inner.length + 1) pos1 nr with
      | .eofQuit =>
        rw [he] at hrun
        simp only [List.mem_singleton] at hrun
        rw [hrun]
        exact hmin
      | .fuelOut =>
        rw [he] at hrun
        simp only [List.mem_singleton] at hrun
        rw [hrun]
        exact hmin
      | .ended pos2 nr2 =>
        rw [he] at hrun
        simp only [List.mem_cons] at hrun
        rcases hrun with hh | ht
        · rw [hh]
          exact hmin
        · exact ih pos2 run ht

/-- C1: every emitted run contains at least `min_length` printable units —
symbols (one content byte per symbol) for the fixed-width scanner, decoded
characters for the Unicode scanner — for every input, configuration and
iteration budget; a candidate sequence that never reaches `min_length` is
never emitted. -/
theorem emitted_runs_reach_min_length :
    (∀ (opts : Options) (inner : List Nat) (fuel searchStart pos : Nat) (run : FWRun),
      run ∈ print_strings_runs opts inner fuel searchStart pos →
      opts.min_length ≤ run.content.length) ∧
    (∀ (opts : Options) (inner : List Nat) (address fuel pos : Nat) (run : URun),
      run ∈ print_unicode_stream_runs opts inner address fuel pos →
      opts.min_length ≤ run.units) :=
  ⟨fun opts inner fuel searchStart pos run h =>
      print_strings_runs_min_length opts inner fuel searchStart pos run h,
    fun opts inner address fuel pos run h =>
      print_unicode_stream_runs_min opts inner address fuel pos run h⟩

/-- The Escape-mode configuration (`--unicode=escape` forces `encoding=S`)
with `min_length = 1`, used by the Unicode-path theorems. -/
def escape_opts : Options :=
  { Options.default with min_length := 1, encoding := .Bit8, unicode_display := .Escape }

/-- Witness for C1: the default configuration on `"abcd"` emits exactly the
4-symbol run, and the Escape configuration with `min_length = 1` on `"a"`
emits a 1-unit run. -/
theorem emitted_runs_reach_min_length_witness :
    Options.default.min_length ≤ (FWRun.mk 0 [0x61, 0x62, 0x63, 0x64] 4).content.length ∧
    escape_opts.min_length ≤ (URun.mk 0 1 [0x61]).units :=
  ⟨emitted_runs_reach_min_length.1 Options.default [0x61, 0x62, 0x63, 0x64] 2 0 0
      (FWRun.mk 0 [0x61, 0x62, 0x63, 0x64] 4) (by decide),
    emitted_runs_reach_min_length.2 escape_opts
      [0x61] 0 1 0 (URun.mk 0 1 [0x61]) (by decide)⟩

/-- C8 fails on the code in the extension phase for 3-byte candidates: the
source's `data.seek_back(1)` at `strings.rs` line 881 — the probe phase
(line 741) seeks back 2 for the same shape.  After the 1-unit run `"a"` is
found, the extension meets the candidate `E0 80 41` whose lead byte sits at
offset 1 and whose third byte fails validation; the code resumes scanning
at offset 3, not at offset 2 = one byte past the failed lead.  The same
candidate shape in the probe phase does resynchronize to one byte past the
lead: probing `E0 80 41 61` abandons the candidate, restarts at offset 1,
and therefore still finds the `"A"` hidden at offset 2. -/
theorem uni_ext_3byte_resync_bug :
    uni_ext escape_opts [0x61, 0xe0, 0x80, 0x41] 5 1 1 = .ended 3 4 ∧
    (3 : Nat) ≠ 1 + 1 ∧
    uni_probe escape_opts [0xe0, 0x80, 0x41, 0x61] 5 0 0 0 0 0 [] =
      .found 3 5 1 1 4 [0x41] := by
  refine ⟨by decide, by decide, by decide⟩

end Strings
